import Mathlib

/-
Verification of the Equilix core: the append-only hash-chained ledger
(src/ledger.py) and the compliance justification engine (src/compliance.py).

Modelling conventions:
- Python strings are modelled as `List Char` (a Python `str` is a sequence of
  code points).  String literals are written `"...".data`.
- `str.lower()` is modelled by mapping `Char.toLower`; all trigger keywords
  and scenario inputs are ASCII, where the two agree.
- The SHA-256 digest is an opaque parameter `H : List Char → List Char`:
  every chain-shape property proved here holds for an arbitrary digest
  function, hence in particular for SHA-256.  What the code controls — the
  byte string fed to the digest — is modelled exactly (`encodeBlob`).
- `time.time()` is modelled by passing the serialized timestamp field in as
  data: the ledger stores and hashes whatever timestamp string the call saw.
- Risk scores are modelled in ℚ.  Every score reachable in the code is a sum
  drawn from {0.2, 0.4, 0.3, 0.25, 0.1}, a multiple of 1/20, which is exactly
  representable at three decimals; Python's binary floats round to the same
  three-decimal values on all reachable sums, so ℚ is exact here.
- Python's `round(x, 3)` uses round-half-to-even; `round3` below implements
  that.  No reachable score is a tie at the third decimal, so the tie branch
  never fires on program values.
- The compliance engine's Python code aliases the class-level `RULES` dicts
  into the returned justification list and then mutates them (it assigns
  `j["explanation"]` in a loop).  The model makes that mutation explicit:
  `assess_test_and_justify` threads a `Rules` state and returns the updated
  state in `rulesAfter`.
-/

namespace Equilix

/-- Python's substring test `needle in hay` on strings. -/
def subStr (needle : List Char) : List Char → Bool
  | [] => needle.isEmpty
  | c :: t => needle.isPrefixOf (c :: t) || subStr needle t

/-- Python's `s.lower()` (ASCII range, which covers every keyword used). -/
def lowerStr (s : List Char) : List Char := s.map Char.toLower

/-- Python's `" ".join(parts)`. -/
def joinSpace (parts : List (List Char)) : List Char := List.intercalate [' '] parts

/-- One row of the `ledger` table (src/ledger.py).  `idx` is the
AUTOINCREMENT primary key; `timestamp` is carried in its serialized form. -/
structure LedgerEntry where
  idx : Nat
  timestamp : List Char
  payload : List Char
  prev_hash : List Char
  hash : List Char
deriving DecidableEq

/-- The byte string fed to SHA-256 in `Ledger.append`:
`blob = f"{ts}|{payload}|{prev}"`. -/
def encodeBlob (ts payload prev : List Char) : List Char :=
  ts ++ '|' :: (payload ++ '|' :: prev)

/-- `Ledger.append(payload)` (src/ledger.py lines 26-39): read the tip hash
(`SELECT hash FROM ledger ORDER BY idx DESC LIMIT 1`, empty string when the
table is empty), hash `encodeBlob`, insert the new row, return the new hash.
The ledger state is the list of rows in insertion order. -/
def ledgerAppend (H : List Char → List Char) (ts payload : List Char)
    (st : List LedgerEntry) : List LedgerEntry × List Char :=
  let prev := ((st.getLast?).map LedgerEntry.hash).getD []
  let h := H (encodeBlob ts payload prev)
  (st ++ [⟨st.length + 1, ts, payload, prev, h⟩], h)

/-- A sequence of `append` calls, each supplying its observed timestamp and
payload. -/
def appendAll (H : List Char → List Char) :
    List (List Char × List Char) → List LedgerEntry → List LedgerEntry
  | [], st => st
  | (ts, p) :: rest, st => appendAll H rest (ledgerAppend H ts p st).1

/-- The chain condition from `prev` onward: the first listed entry's
`prev_hash` is `prev` and each later entry's `prev_hash` is the `hash` of the
entry just before it. -/
def chainFrom (prev : List Char) : List LedgerEntry → Bool
  | [] => true
  | e :: rest => decide (e.prev_hash = prev) && chainFrom e.hash rest

/-- The tip hash: the `hash` of the last entry, or `prev` if there is none. -/
def tipFrom (prev : List Char) : List LedgerEntry → List Char
  | [] => prev
  | e :: rest => tipFrom e.hash rest

/-- `Ledger.read_latest(limit)` (src/ledger.py lines 41-50):
`SELECT ... ORDER BY idx DESC LIMIT ?`.  On a state built by appends the
`idx` column is strictly increasing in insertion order, so `ORDER BY idx
DESC` is list reversal.  SQLite semantics of `LIMIT`: a negative limit means
no limit at all. -/
def read_latest (limit : Int) (st : List LedgerEntry) : List LedgerEntry :=
  if limit < 0 then st.reverse else st.reverse.take limit.toNat

/-- Python's `round(q, 3)`: round half to even at three decimal places. -/
def round3 (q : ℚ) : ℚ :=
  let x := q * 1000
  let k : ℤ := if Int.fract x = 1 / 2 then (if 2 ∣ ⌊x⌋ then ⌊x⌋ else ⌊x⌋ + 1) else round x
  (k : ℚ) / 1000

/-- Python's `min(a, b)`. -/
def pyMin (a b : ℚ) : ℚ := if a ≤ b then a else b

/-- One justification record `{reg, clause, msg}`; the `explanation` key is
absent (`none`) until `assess_test_and_justify` assigns it. -/
structure Citation where
  reg : List Char
  clause : List Char
  msg : List Char
  explanation : Option (List Char)
deriving DecidableEq

/-- The class attribute `ComplianceEngine.RULES`: one list of citation dicts
per trigger keyword. -/
structure Rules where
  PHI : List Citation
  audit : List Citation
  encrypt : List Citation
deriving DecidableEq

/-- The citation dict under `RULES["PHI"]`. -/
def phiCitation : Citation :=
  ⟨"HIPAA".data, "164.308".data, "Access control for PHI required.".data, none⟩

/-- The citation dict under `RULES["audit"]`. -/
def auditCitation : Citation :=
  ⟨"21CFR".data, "11.10".data, "Audit trails required.".data, none⟩

/-- The citation dict under `RULES["encrypt"]`. -/
def encryptCitation : Citation :=
  ⟨"GDPR".data, "32".data, "Encryption required for personal data.".data, none⟩

/-- The fresh dict appended by the steps-scan branch. -/
def stepsAuditCitation : Citation :=
  ⟨"21CFR".data, "11.10".data, "Audit trail mentioned in steps.".data, none⟩

/-- `ComplianceEngine.RULES` in its initial (class-definition) state. -/
def RULES : Rules := ⟨[phiCitation], [auditCitation], [encryptCitation]⟩

/-- A test-case dict.  `steps` is `none` when the key is absent
(`test_case.get("steps", [])` then yields `[]`); `extra` stands for any
other keys the dict may carry. -/
structure TestCase where
  title : Option (List Char) := none
  steps : Option (List (List Char)) := none
  extra : List (List Char × List Char) := []
deriving DecidableEq

/-- Result of `assess_test_and_justify`: the returned pair plus the state of
the (mutated) `RULES` dicts after the call. -/
structure AssessResult where
  rulesAfter : Rules
  justification : List Citation
  score : ℚ
deriving DecidableEq

/-- The f-string `f"Requirement relates to {reg} {clause} — {msg}"`. -/
def explainText (c : Citation) : List Char :=
  "Requirement relates to ".data ++ c.reg ++ " ".data ++ c.clause ++ " — ".data ++ c.msg

/-- The in-place assignment `j["explanation"] = ...` on one dict. -/
def withExplanation (c : Citation) : Citation :=
  { c with explanation := some (explainText c) }

/-- `ComplianceEngine.assess_test_and_justify` (src/compliance.py lines
81-101), with the mutation of the shared `RULES` dicts made explicit: every
dict that entered `justification` from `rules` gets its `explanation` set,
and the same (updated) dicts are what the caller receives. -/
def assess_test_and_justify (rules : Rules) (requirement_text : List Char)
    (test_case : TestCase) : AssessResult :=
  let rt := lowerStr requirement_text
  let phiB := subStr "phi".data rt
  let auditB := subStr "audit".data rt
  let encB := subStr "encrypt".data rt
  let j1 : List Citation := if phiB then rules.PHI else []
  let s1 : ℚ := if phiB then 0.2 + 0.4 else 0.2
  let j2 := j1 ++ (if auditB then rules.audit else [])
  let s2 := if auditB then s1 + 0.3 else s1
  let j3 := j2 ++ (if encB then rules.encrypt else [])
  let s3 := if encB then s2 + 0.25 else s2
  let steps_text := lowerStr (joinSpace ((test_case.steps).getD []))
  let stepsB := subStr "audit".data steps_text
                  && !(j3.any fun j => decide (j.reg = "21CFR".data))
  let j4 := j3 ++ (if stepsB then [stepsAuditCitation] else [])
  let s4 := if stepsB then s3 + 0.1 else s3
  { rulesAfter :=
      { PHI := if phiB then rules.PHI.map withExplanation else rules.PHI
        audit := if auditB then rules.audit.map withExplanation else rules.audit
        encrypt := if encB then rules.encrypt.map withExplanation else rules.encrypt }
    justification := j4.map withExplanation
    score := pyMin 1 (round3 s4) }

/-- Keyword occurs (case-insensitively) in the requirement text. -/
def reqHit (kw requirement_text : List Char) : Bool := subStr kw (lowerStr requirement_text)

/-- Keyword occurs (case-insensitively) in the joined steps of a test case. -/
def stepsHit (kw : List Char) (tc : TestCase) : Bool :=
  subStr kw (lowerStr (joinSpace ((tc.steps).getD [])))

/-- The justification list produced for a given combination of trigger
hits, before explanations are attached. -/
def justOf (p a e s : Bool) : List Citation :=
  (((if p then [phiCitation] else []) ++ (if a then [auditCitation] else []))
      ++ (if e then [encryptCitation] else []))
    ++ (if s && !a then [stepsAuditCitation] else [])

/-- The raw (unclamped) score in integer thousandths for a given combination
of trigger hits. -/
def hitScoreM (p a e s : Bool) : ℤ :=
  200 + (if p then 400 else 0) + (if a then 300 else 0) + (if e then 250 else 0)
    + (if s && !a then 100 else 0)

/-- Truthiness of the `openai_key` argument: `None` and `""` are falsy. -/
def keyTruthy : Option (List Char) → Bool
  | none => false
  | some s => !s.isEmpty

/-- The fixed fallback list returned by `generate_tests_via_llm` when no LLM
is used: one positive and one negative scenario. -/
def fallbackTests : List TestCase :=
  [{ title := some "Positive - happy path".data,
     steps := some ["Set up valid user with required roles".data,
                    "Perform action per requirement".data,
                    "Check success response and audit log".data] },
   { title := some "Negative - invalid input".data,
     steps := some ["Use malformed input".data,
                    "Verify rejection with proper error code".data,
                    "Ensure no data leakage".data] }]

/-- `generate_tests_via_llm` (src/compliance.py lines 16-69).  The external
network call is an oracle argument: `openaiImported` is whether the `openai`
module loaded (`OpenAI` is not `None`), and `llmOutcome` is `some tests`
when the API call, JSON parse and `parsed.get("tests", [])` all succeed, or
`none` when any exception is raised (the `except` branch prints a warning
and falls through to the fallback list). -/
def generate_tests_via_llm (openai_key : Option (List Char)) (openaiImported : Bool)
    (llmOutcome : Option (List TestCase)) : List TestCase :=
  if keyTruthy openai_key && openaiImported then
    match llmOutcome with
    | some tests => tests
    | none => fallbackTests
  else fallbackTests

/-! ### Helper lemmas -/

theorem tipFrom_eq_getLast (prev : List Char) (st : List LedgerEntry) :
    tipFrom prev st = ((st.getLast?).map LedgerEntry.hash).getD prev := by
  induction st generalizing prev with
  | nil => rfl
  | cons e rest ih =>
    cases rest with
    | nil => rfl
    | cons f t =>
      rw [tipFrom, ih, List.getLast?_cons_cons]
      rcases hg : (f :: t).getLast? with _ | g
      · exact absurd hg (by simp)
      · simp

theorem chainFrom_snoc (prev : List Char) (st : List LedgerEntry) (e : LedgerEntry) :
    chainFrom prev (st ++ [e])
      = (chainFrom prev st && decide (e.prev_hash = tipFrom prev st)) := by
  induction st generalizing prev with
  | nil => simp [chainFrom, tipFrom]
  | cons f t ih =>
    rw [List.cons_append, chainFrom, ih, chainFrom, tipFrom, Bool.and_assoc]

theorem idx_snoc (st : List LedgerEntry) (e : LedgerEntry)
    (h : ∀ i (hi : i < st.length), (st.get ⟨i, hi⟩).idx = i + 1)
    (he : e.idx = st.length + 1) :
    ∀ i (hi : i < (st ++ [e]).length), ((st ++ [e]).get ⟨i, hi⟩).idx = i + 1 := by
  intro i hi
  rcases lt_or_ge i st.length with hlt | hge
  · rw [List.get_eq_getElem, List.getElem_append_left hlt]
    exact h i hlt
  · have hieq : i = st.length := by
      have := hi
      simp [List.length_append] at this
      omega
    subst hieq
    rw [List.get_eq_getElem, List.getElem_append_right (le_refl _)]
    simpa using he

theorem appendAll_invariant (H : List Char → List Char)
    (inputs : List (List Char × List Char)) :
    ∀ st : List LedgerEntry,
      chainFrom [] st = true →
      (∀ i (hi : i < st.length), (st.get ⟨i, hi⟩).idx = i + 1) →
      chainFrom [] (appendAll H inputs st) = true
        ∧ ∀ i (hi : i < (appendAll H inputs st).length),
            ((appendAll H inputs st).get ⟨i, hi⟩).idx = i + 1 := by
  induction inputs with
  | nil => intro st h1 h2; exact ⟨h1, h2⟩
  | cons tp rest ih =>
    intro st h1 h2
    obtain ⟨ts, p⟩ := tp
    rw [appendAll]
    apply ih
    · rw [ledgerAppend, chainFrom_snoc, h1]
      simp [tipFrom_eq_getLast]
    · exact idx_snoc st _ h2 rfl

theorem ledgerAppend_returns_stored (H : List Char → List Char) (ts p : List Char)
    (st : List LedgerEntry) :
    (ledgerAppend H ts p st).2
      = ((((ledgerAppend H ts p st).1.getLast?).map LedgerEntry.hash).getD []) := by
  rw [ledgerAppend]
  simp

theorem appendAll_idx_ascending (H : List Char → List Char)
    (inputs : List (List Char × List Char)) :
    (appendAll H inputs []).Pairwise (fun a b => a.idx < b.idx) := by
  have hidx := (appendAll_invariant H inputs [] rfl (by intro i hi; simp at hi)).2
  refine List.pairwise_iff_get.2 fun i j hij => ?_
  have h1 := hidx i.1 i.2
  have h2 := hidx j.1 j.2
  simp only [Fin.eta] at h1 h2
  rw [h1, h2]
  omega

theorem sep_split (sep : Char) :
    ∀ (a c x y : List Char), sep ∉ a → sep ∉ c →
      a ++ sep :: x = c ++ sep :: y → a = c ∧ x = y := by
  intro a
  induction a with
  | nil =>
    intro c x y _ hc h
    cases c with
    | nil => simpa using h
    | cons d t =>
      simp only [List.nil_append, List.cons_append, List.cons.injEq] at h
      exact absurd (h.1 ▸ List.mem_cons_self d t) hc
  | cons b t ih =>
    intro c x y ha hc h
    cases c with
    | nil =>
      simp only [List.cons_append, List.nil_append, List.cons.injEq] at h
      exact absurd (h.1.symm ▸ List.mem_cons_self b t) ha
    | cons d u =>
      simp only [List.cons_append, List.cons.injEq] at h
      obtain ⟨h1, h2⟩ := h
      have := ih u x y (fun hm => ha (List.mem_cons_of_mem b hm))
        (fun hm => hc (h1 ▸ List.mem_cons_of_mem d hm)) h2
      exact ⟨by rw [h1, this.1], this.2⟩

theorem round3_thousandths (n : ℤ) : round3 ((n : ℚ) / 1000) = (n : ℚ) / 1000 := by
  have hx : ((n : ℚ) / 1000) * 1000 = (n : ℚ) := by field_simp
  simp only [round3, hx]
  rw [if_neg (by rw [Int.fract_intCast]; norm_num), round_intCast]

theorem pyMin_thousandths (n : ℤ) :
    pyMin 1 ((n : ℚ) / 1000) = ((min 1000 n : ℤ) : ℚ) / 1000 := by
  rw [pyMin]
  split_ifs with h
  · rw [le_div_iff₀ (by norm_num : (0:ℚ) < 1000)] at h
    have h' : (1000 : ℤ) ≤ n := by exact_mod_cast (by linarith : (1000 : ℚ) ≤ (n : ℚ))
    rw [min_eq_left h']
    norm_num
  · push_neg at h
    rw [div_lt_iff₀ (by norm_num : (0:ℚ) < 1000)] at h
    have h' : n < 1000 := by exact_mod_cast (by linarith : (n : ℚ) < 1000)
    rw [min_eq_right h'.le]

theorem pyMin_round3_eq (q : ℚ) (n : ℤ) (h : q = (n : ℚ) / 1000) :
    pyMin 1 (round3 q) = ((min 1000 n : ℤ) : ℚ) / 1000 := by
  rw [h, round3_thousandths, pyMin_thousandths]

theorem any21_eq (p a e : Bool) :
    ((((if p then [phiCitation] else []) ++ (if a then [auditCitation] else []))
        ++ (if e then [encryptCitation] else [])).any
      fun j => decide (j.reg = "21CFR".data)) = a := by
  cases p <;> cases a <;> cases e <;> decide

theorem assess_just_eq (r : List Char) (tc : TestCase) :
    (assess_test_and_justify RULES r tc).justification
      = (justOf (reqHit "phi".data r) (reqHit "audit".data r) (reqHit "encrypt".data r)
          (stepsHit "audit".data tc)).map withExplanation := by
  simp only [assess_test_and_justify, RULES, justOf, reqHit, stepsHit, any21_eq]

theorem assess_score_eq (r : List Char) (tc : TestCase) :
    (assess_test_and_justify RULES r tc).score
      = ((min 1000 (hitScoreM (reqHit "phi".data r) (reqHit "audit".data r)
          (reqHit "encrypt".data r) (stepsHit "audit".data tc)) : ℤ) : ℚ) / 1000 := by
  simp only [assess_test_and_justify, RULES, reqHit, stepsHit, any21_eq]
  cases hp : subStr "phi".data (lowerStr r) <;>
    cases ha : subStr "audit".data (lowerStr r) <;>
      cases he : subStr "encrypt".data (lowerStr r) <;>
        cases hs : subStr "audit".data (lowerStr (joinSpace ((tc.steps).getD []))) <;>
          simp only [Bool.true_and, Bool.false_and, Bool.and_true, Bool.and_false,
            Bool.not_true, Bool.not_false, if_true, if_false, hitScoreM] <;>
          [ rw [pyMin_round3_eq _ 200 (by norm_num)];
            rw [pyMin_round3_eq _ 300 (by norm_num)];
            rw [pyMin_round3_eq _ 450 (by norm_num)];
            rw [pyMin_round3_eq _ 550 (by norm_num)];
            rw [pyMin_round3_eq _ 500 (by norm_num)];
            rw [pyMin_round3_eq _ 500 (by norm_num)];
            rw [pyMin_round3_eq _ 750 (by norm_num)];
            rw [pyMin_round3_eq _ 750 (by norm_num)];
            rw [pyMin_round3_eq _ 600 (by norm_num)];
            rw [pyMin_round3_eq _ 700 (by norm_num)];
            rw [pyMin_round3_eq _ 850 (by norm_num)];
            rw [pyMin_round3_eq _ 950 (by norm_num)];
            rw [pyMin_round3_eq _ 900 (by norm_num)];
            rw [pyMin_round3_eq _ 900 (by norm_num)];
            rw [pyMin_round3_eq _ 1150 (by norm_num)];
            rw [pyMin_round3_eq _ 1150 (by norm_num)]] <;>
          norm_num

theorem withExplanation_reg (c : Citation) : (withExplanation c).reg = c.reg := rfl

theorem withExplanation_idem (c : Citation) :
    withExplanation (withExplanation c) = withExplanation c := rfl

theorem withExplanation_comp : withExplanation ∘ withExplanation = withExplanation :=
  funext withExplanation_idem

theorem hitScoreM_mono : ∀ p a e s p' a' e' s' : Bool,
    (p = true → p' = true) → (a = true → a' = true) → (e = true → e' = true) →
    (s = true → s' = true) → hitScoreM p a e s ≤ hitScoreM p' a' e' s' := by
  decide

theorem hitScoreM_nonneg : ∀ p a e s : Bool, 0 ≤ hitScoreM p a e s := by
  decide

theorem score_form_nonneg (m : ℤ) (hm : 0 ≤ m) :
    (0 : ℚ) ≤ ((min 1000 m : ℤ) : ℚ) / 1000 := by
  apply div_nonneg _ (by norm_num)
  exact_mod_cast le_min (by norm_num) hm

theorem score_form_le_one (m : ℤ) : ((min 1000 m : ℤ) : ℚ) / 1000 ≤ 1 := by
  rw [div_le_one (by norm_num : (0:ℚ) < 1000)]
  exact_mod_cast min_le_left 1000 m

/-! ### Claims about the ledger -/

/-- C1: Hash-chain invariant.  After any sequence of `append` calls starting
from an empty ledger, the first entry's `prev_hash` is the empty string and
every later entry's `prev_hash` equals the `hash` of the entry with the
immediately preceding sequence number (entry at position `i` has sequence
`i + 1`); and `append` returns exactly the `hash` of the entry it just
stored.  Holds for every digest function `H`. -/
theorem hash_chain_invariant (H : List Char → List Char)
    (inputs : List (List Char × List Char)) :
    chainFrom [] (appendAll H inputs []) = true
    ∧ (∀ i (hi : i < (appendAll H inputs []).length),
        ((appendAll H inputs []).get ⟨i, hi⟩).idx = i + 1)
    ∧ ∀ (st : List LedgerEntry) (ts p : List Char),
        (ledgerAppend H ts p st).2
          = ((((ledgerAppend H ts p st).1.getLast?).map LedgerEntry.hash).getD []) := by
  have h := appendAll_invariant H inputs [] rfl (by intro i hi; simp at hi)
  exact ⟨h.1, h.2, fun st ts p => ledgerAppend_returns_stored H ts p st⟩

/-- Witness for C1 on a concrete two-append run with the identity digest. -/
theorem hash_chain_invariant_witness :
    chainFrom [] (appendAll (fun s => s) [("1".data, "a".data), ("2".data, "b".data)] []) = true
    ∧ ((appendAll (fun s => s) [("1".data, "a".data), ("2".data, "b".data)] []).get
        ⟨1, by decide⟩).idx = 2
    ∧ (ledgerAppend (fun s => s) "3".data "c".data []).2
        = ((((ledgerAppend (fun s => s) "3".data "c".data []).1.getLast?).map
            LedgerEntry.hash).getD []) := by
  have h := hash_chain_invariant (fun s => s) [("1".data, "a".data), ("2".data, "b".data)]
  exact ⟨h.1, h.2.1 1 (by decide), h.2.2 [] "3".data "c".data⟩

/-- C2 counterexample: the digest input encoding is ambiguous.  The payload
may itself contain the separator `|`, so two distinct
`(timestamp, payload, prev_hash)` triples feed identical byte strings to the
digest: `("1", "a|b", "c")` and `("1", "a", "b|c")` both encode to
`"1|a|b|c"`. -/
theorem encodeBlob_collision :
    encodeBlob "1".data "a|b".data "c".data = encodeBlob "1".data "a".data "b|c".data
    ∧ ("1".data, "a|b".data, "c".data)
        ≠ (("1".data, "a".data, "b|c".data) : List Char × List Char × List Char) := by
  decide

/-- C2 (amended): the encoding is injective only on inputs whose timestamp
and payload fields do not contain the separator `|`; for such inputs equal
blobs force equal triples.  (Unrestricted injectivity fails, see
`encodeBlob_collision`.) -/
theorem encodeBlob_injective_without_separator
    (ts p prev ts' p' prev' : List Char)
    (hts : '|' ∉ ts) (hp : '|' ∉ p) (hts' : '|' ∉ ts') (hp' : '|' ∉ p')
    (h : encodeBlob ts p prev = encodeBlob ts' p' prev') :
    ts = ts' ∧ p = p' ∧ prev = prev' := by
  simp only [encodeBlob] at h
  obtain ⟨h1, h2⟩ := sep_split '|' ts ts' _ _ hts hts' h
  obtain ⟨h3, h4⟩ := sep_split '|' p p' _ _ hp hp' h2
  exact ⟨h1, h3, h4⟩

/-- Witness for the amended C2 at a concrete separator-free input. -/
theorem encodeBlob_injective_witness :
    ('|' ∉ "1".data) ∧ ('|' ∉ "a".data)
    ∧ ("1".data = "1".data ∧ "a".data = "a".data ∧ "b".data = "b".data) :=
  ⟨by decide, by decide,
   encodeBlob_injective_without_separator "1".data "a".data "b".data
     "1".data "a".data "b".data (by decide) (by decide) (by decide) (by decide) rfl⟩

/-- C3 counterexample: a negative `limit` is neither an error nor empty.
SQLite treats a negative `LIMIT` as "no limit", so `read_latest(-1)` on a
one-entry ledger returns that entry rather than failing or returning the
empty sequence. -/
theorem read_latest_negative_limit_cex :
    ((-1 : Int) ≤ 0)
    ∧ read_latest (-1) (appendAll (fun s => s) [("1".data, "a".data)] [])
        = (appendAll (fun s => s) [("1".data, "a".data)] []).reverse
    ∧ read_latest (-1) (appendAll (fun s => s) [("1".data, "a".data)] []) ≠ [] := by
  decide

/-- C3 (amended): on any ledger state built by appends, `read_latest(limit)`
with `limit > 0` returns at most `limit` entries in strictly descending
sequence order; `limit = 0` yields the empty sequence; but a negative
`limit` returns the whole ledger newest-first (SQLite's negative `LIMIT`
means unlimited) instead of failing or returning nothing. -/
theorem read_latest_contract (H : List Char → List Char)
    (inputs : List (List Char × List Char)) (limit : Int) :
    (0 < limit →
        (read_latest limit (appendAll H inputs [])).length ≤ limit.toNat
        ∧ (read_latest limit (appendAll H inputs [])).Pairwise fun a b => b.idx < a.idx)
    ∧ (limit = 0 → read_latest limit (appendAll H inputs []) = [])
    ∧ (limit < 0 →
        read_latest limit (appendAll H inputs []) = (appendAll H inputs []).reverse) := by
  have hdesc : (appendAll H inputs []).reverse.Pairwise (fun a b => b.idx < a.idx) :=
    List.pairwise_reverse.2 (appendAll_idx_ascending H inputs)
  refine ⟨fun hpos => ?_, fun hzero => ?_, fun hneg => ?_⟩
  · rw [read_latest, if_neg (by omega)]
    constructor
    · rw [List.length_take]
      exact min_le_left _ _
    · exact hdesc.sublist (List.take_sublist _ _)
  · subst hzero
    rw [read_latest, if_neg (by omega)]
    simp
  · rw [read_latest, if_pos hneg]

/-- Witness for C3 (amended): scenario 4 reads back with limit 2. -/
theorem read_latest_contract_witness :
    (read_latest 2 (appendAll (fun s => s)
        [("1".data, "a".data), ("2".data, "b".data), ("3".data, "c".data)] [])).length
      ≤ (2 : Int).toNat
    ∧ (read_latest 2 (appendAll (fun s => s)
        [("1".data, "a".data), ("2".data, "b".data), ("3".data, "c".data)] [])).Pairwise
        fun a b => b.idx < a.idx :=
  (read_latest_contract (fun s => s)
    [("1".data, "a".data), ("2".data, "b".data), ("3".data, "c".data)] 2).1 (by decide)

/-! ### Claims about the compliance engine -/

/-- C4: Determinism of the justification engine.  Two successive calls of
`assess_test_and_justify` with identical `(requirement_text, test_case)`
inputs return bit-identical outputs — the same justification records in the
same order and the same risk score — even though the first call mutates the
shared `RULES` dicts (attaching `explanation` keys); no state other than the
threaded rules is consulted, and the statement holds from every rules
state. -/
theorem assess_deterministic (rules : Rules) (r : List Char) (tc : TestCase) :
    (assess_test_and_justify
        (assess_test_and_justify rules r tc).rulesAfter r tc).justification
        = (assess_test_and_justify rules r tc).justification
    ∧ (assess_test_and_justify
        (assess_test_and_justify rules r tc).rulesAfter r tc).score
        = (assess_test_and_justify rules r tc).score := by
  simp only [assess_test_and_justify]
  cases hp : subStr "phi".data (lowerStr r) <;>
    cases ha : subStr "audit".data (lowerStr r) <;>
      cases he : subStr "encrypt".data (lowerStr r) <;>
        simp [List.any_append, List.map_append, withExplanation_comp, withExplanation_reg]

/-- C5: Risk-score bounds and formatting.  Every score returned by
`assess_test_and_justify` lies in `[0, 1]` (clamping at `1`), is an exact
multiple of 1/1000 (three decimal places), and is monotone: if a second
input fires at least the trigger matches of the first, its score is at
least as large. -/
theorem risk_score_bounds (r : List Char) (tc : TestCase)
    (r' : List Char) (tc' : TestCase) :
    0 ≤ (assess_test_and_justify RULES r tc).score
    ∧ (assess_test_and_justify RULES r tc).score ≤ 1
    ∧ (∃ n : ℤ, (assess_test_and_justify RULES r tc).score = (n : ℚ) / 1000)
    ∧ ((reqHit "phi".data r = true → reqHit "phi".data r' = true) →
        (reqHit "audit".data r = true → reqHit "audit".data r' = true) →
        (reqHit "encrypt".data r = true → reqHit "encrypt".data r' = true) →
        (stepsHit "audit".data tc = true → stepsHit "audit".data tc' = true) →
        (assess_test_and_justify RULES r tc).score
          ≤ (assess_test_and_justify RULES r' tc').score) := by
  simp only [assess_score_eq]
  refine ⟨score_form_nonneg _ (hitScoreM_nonneg _ _ _ _), score_form_le_one _,
    ⟨_, rfl⟩, fun h1 h2 h3 h4 => ?_⟩
  have hm := min_le_min (le_refl (1000 : ℤ)) (hitScoreM_mono _ _ _ _ _ _ _ _ h1 h2 h3 h4)
  gcongr

/-- Witness for C5: scenario 3's input against an input firing all
requirement triggers. -/
theorem risk_score_bounds_witness :
    0 ≤ (assess_test_and_justify RULES "Generic requirement.".data
        ⟨some "t".data, some ["do something".data], []⟩).score
    ∧ (assess_test_and_justify RULES "Generic requirement.".data
        ⟨some "t".data, some ["do something".data], []⟩).score ≤ 1
    ∧ (∃ n : ℤ, (assess_test_and_justify RULES "Generic requirement.".data
        ⟨some "t".data, some ["do something".data], []⟩).score = (n : ℚ) / 1000)
    ∧ (assess_test_and_justify RULES "Generic requirement.".data
        ⟨some "t".data, some ["do something".data], []⟩).score
      ≤ (assess_test_and_justify RULES "Store PHI with audit and encryption.".data
        ⟨some "t".data, some ["do something".data], []⟩).score := by
  have h := risk_score_bounds "Generic requirement.".data
    ⟨some "t".data, some ["do something".data], []⟩
    "Store PHI with audit and encryption.".data
    ⟨some "t".data, some ["do something".data], []⟩
  exact ⟨h.1, h.2.1, h.2.2.1, h.2.2.2 (by decide) (by decide) (by decide) (by decide)⟩

/-- C6: Double-counting guard.  When the audit trigger occurs
case-insensitively both in the requirement text and in the joined steps,
the result holds exactly one 21CFR citation — the requirement-scan one with
clause 11.10 and message "Audit trails required." — and the steps-scan adds
no second one; on scenario 2's input the justification is exactly that one
citation and the score is 0.5. -/
theorem audit_no_double_count (r : List Char) (tc : TestCase)
    (hreq : reqHit "audit".data r = true) (hsteps : stepsHit "audit".data tc = true) :
    ((assess_test_and_justify RULES r tc).justification.countP
        fun j => decide (j.reg = "21CFR".data)) = 1
    ∧ (∀ j ∈ (assess_test_and_justify RULES r tc).justification,
        j.reg = "21CFR".data →
          j.clause = "11.10".data ∧ j.msg = "Audit trails required.".data)
    ∧ (assess_test_and_justify RULES "Audit required for changes.".data
        ⟨some "t".data, some ["perform change".data, "check audit log".data],
          []⟩).justification = [withExplanation auditCitation]
    ∧ (assess_test_and_justify RULES "Audit required for changes.".data
        ⟨some "t".data, some ["perform change".data, "check audit log".data],
          []⟩).score = 0.5 := by
  refine ⟨?_, ?_, by decide, ?_⟩
  · rw [assess_just_eq, hreq]
    cases hp : reqHit "phi".data r <;> cases he : reqHit "encrypt".data r <;>
      cases hs : stepsHit "audit".data tc <;> decide
  · rw [assess_just_eq, hreq]
    cases hp : reqHit "phi".data r <;> cases he : reqHit "encrypt".data r <;>
      cases hs : stepsHit "audit".data tc <;> decide
  · have hb : (min 1000 (hitScoreM
        (reqHit "phi".data "Audit required for changes.".data)
        (reqHit "audit".data "Audit required for changes.".data)
        (reqHit "encrypt".data "Audit required for changes.".data)
        (stepsHit "audit".data ⟨some "t".data,
          some ["perform change".data, "check audit log".data], []⟩)) : ℤ) = 500 := by
      decide
    rw [assess_score_eq, hb]
    norm_num

/-- Witness for C6 at scenario 2's concrete input. -/
theorem audit_no_double_count_witness :
    ((assess_test_and_justify RULES "Audit required for changes.".data
        ⟨some "t".data, some ["perform change".data, "check audit log".data],
          []⟩).justification.countP fun j => decide (j.reg = "21CFR".data)) = 1
    ∧ (assess_test_and_justify RULES "Audit required for changes.".data
        ⟨some "t".data, some ["perform change".data, "check audit log".data],
          []⟩).score = 0.5 := by
  have h := audit_no_double_count "Audit required for changes.".data
    ⟨some "t".data, some ["perform change".data, "check audit log".data], []⟩
    (by decide) (by decide)
  exact ⟨h.1, h.2.2.2⟩

/-- C7: No-match base case.  When none of the triggers `phi`, `audit`,
`encrypt` occurs case-insensitively in the requirement text or in the
joined steps, the justification list is empty and the score is exactly
0.2. -/
theorem no_trigger_base_case (r : List Char) (tc : TestCase)
    (h1 : reqHit "phi".data r = false) (h2 : reqHit "audit".data r = false)
    (h3 : reqHit "encrypt".data r = false)
    (h4 : stepsHit "phi".data tc = false) (h5 : stepsHit "audit".data tc = false)
    (h6 : stepsHit "encrypt".data tc = false) :
    (assess_test_and_justify RULES r tc).justification = []
    ∧ (assess_test_and_justify RULES r tc).score = 0.2 := by
  rw [assess_just_eq, assess_score_eq, h1, h2, h3, h5]
  refine ⟨by decide, ?_⟩
  rw [show (min 1000 (hitScoreM false false false false) : ℤ) = 200 from by decide]
  norm_num

/-- Witness for C7 at scenario 3's concrete input. -/
theorem no_trigger_base_case_witness :
    (assess_test_and_justify RULES "Generic requirement.".data
        ⟨some "t".data, some ["do something".data], []⟩).justification = []
    ∧ (assess_test_and_justify RULES "Generic requirement.".data
        ⟨some "t".data, some ["do something".data], []⟩).score = 0.2 :=
  no_trigger_base_case "Generic requirement.".data
    ⟨some "t".data, some ["do something".data], []⟩
    (by decide) (by decide) (by decide) (by decide) (by decide) (by decide)

/-- C8: Proposal-source fallback.  Whenever the key is unconfigured
(absent or empty), the `openai` import failed, or the invocation raised,
`generate_tests_via_llm` returns — instead of an error — the fixed fallback
list of exactly two proposals: the positive happy-path scenario and the
negative invalid-input scenario. -/
theorem llm_fallback (key : Option (List Char)) (imported : Bool)
    (outcome : Option (List TestCase))
    (h : keyTruthy key = false ∨ imported = false ∨ outcome = none) :
    generate_tests_via_llm key imported outcome = fallbackTests
    ∧ fallbackTests.length = 2
    ∧ fallbackTests.map TestCase.title
        = [some "Positive - happy path".data, some "Negative - invalid input".data] := by
  refine ⟨?_, by decide, by decide⟩
  rcases h with h | h | h
  · simp [generate_tests_via_llm, h]
  · subst h
    simp [generate_tests_via_llm]
  · subst h
    simp only [generate_tests_via_llm]
    cases keyTruthy key && imported <;> simp

/-- Witness for C8: a configured key whose API call raised. -/
theorem llm_fallback_witness :
    generate_tests_via_llm (some "sk-123".data) true none = fallbackTests
    ∧ fallbackTests.length = 2
    ∧ fallbackTests.map TestCase.title
        = [some "Positive - happy path".data, some "Negative - invalid input".data] :=
  llm_fallback (some "sk-123".data) true none (Or.inr (Or.inr rfl))

/-- C9: The result of `assess_test_and_justify` depends only on the
requirement text and the test case's steps: two test cases with equal
(defaulted) steps lists give identical results whatever their titles or
other fields; and a test case with no `steps` key behaves as one with an
empty steps list. -/
theorem assess_depends_only_on_steps :
    (∀ (rules : Rules) (r : List Char) (t1 t2 : TestCase),
        (t1.steps).getD [] = (t2.steps).getD [] →
        assess_test_and_justify rules r t1 = assess_test_and_justify rules r t2)
    ∧ ∀ (rules : Rules) (r : List Char) (title : Option (List Char))
        (extra : List (List Char × List Char)),
        assess_test_and_justify rules r ⟨title, none, extra⟩
          = assess_test_and_justify rules r ⟨title, some [], extra⟩ := by
  constructor
  · intro rules r t1 t2 h
    simp only [assess_test_and_justify]
    rw [h]
  · intro rules r title extra
    rfl

/-- Witness for C9: same steps, different title and extra fields. -/
theorem assess_depends_only_on_steps_witness :
    assess_test_and_justify RULES "Audit required.".data
        ⟨some "t".data, some ["check audit".data], []⟩
      = assess_test_and_justify RULES "Audit required.".data
        ⟨some "other title".data, some ["check audit".data],
          [("k".data, "v".data)]⟩ :=
  assess_depends_only_on_steps.1 RULES "Audit required.".data
    ⟨some "t".data, some ["check audit".data], []⟩
    ⟨some "other title".data, some ["check audit".data], [("k".data, "v".data)]⟩
    rfl

/-- C10: Each regulation name appears in at most one justification record
of any result, and the justification list never holds more than three
records. -/
theorem at_most_one_citation_per_regulation (r : List Char) (tc : TestCase) :
    ((assess_test_and_justify RULES r tc).justification.countP
        fun j => decide (j.reg = "HIPAA".data)) ≤ 1
    ∧ ((assess_test_and_justify RULES r tc).justification.countP
        fun j => decide (j.reg = "21CFR".data)) ≤ 1
    ∧ ((assess_test_and_justify RULES r tc).justification.countP
        fun j => decide (j.reg = "GDPR".data)) ≤ 1
    ∧ (assess_test_and_justify RULES r tc).justification.length ≤ 3 := by
  simp only [assess_just_eq]
  cases hp : reqHit "phi".data r <;> cases ha : reqHit "audit".data r <;>
    cases he : reqHit "encrypt".data r <;> cases hs : stepsHit "audit".data tc <;>
      decide

end Equilix
